import Mathlib

/-!
Verification of the preference-similarity and clustering engine in
`networking/networking.py` (class `PeopleNetworking`).

Shallow embedding notes:
* `people_data` (a pandas DataFrame with columns `name`, `preferences`) is a
  `List (String × String)` in ingestion order.
* numpy / similarity matrices are `List (List ℚ)` in row-major order.
* sklearn calls (`TfidfVectorizer.fit_transform`, `KMeans.fit_predict`,
  `AgglomerativeClustering.fit_predict`) are third-party library calls, not
  code of this repository; they are modelled as fields of `SklearnOracle`.
  Square roots (used by `StandardScaler` via `scale_ = sqrt(var_)`, by
  `cosine_similarity` norms and by `np.std`) are modelled by the abstract
  field `sqrtA`, since no claim depends on the numeric value of a square
  root, only on equalities between them; where sklearn/numpy behaviour is
  relied on (label ranges, seeded determinism, row counts), it appears as an
  explicit hypothesis of the theorem concerned.
* a Python method that can raise returns `Except EngineError _`; a mutating
  method returns the (possibly partially mutated) state next to the result,
  exactly as attribute assignments executed before a raise persist in Python.
* `np.argsort` (ascending) resolves ties by index order on the small arrays
  appearing here (its introsort falls back to a stable insertion sort); it is
  modelled as sorting indices by the value with index as tie-break, which is
  the same function.  Python's `list.sort` is stable; sorting the pair list
  generated in lexicographic `(i, j)` order with a stable descending sort is
  the same function as sorting index pairs by score descending with
  lexicographic `(i, j)` tie-break, which is how it is modelled.
-/

deriving instance DecidableEq for Except

namespace PeopleNet

/-- Errors raised by `PeopleNetworking` methods.  Each constructor stands for
one `raise` site (or a pandas/sklearn exception propagating out). -/
inductive EngineError where
  /-- Raised as `ValueError("No people data available. Call add_people() first.")`. -/
  | noPeopleData
  /-- Raised as `ValueError("No feature matrix available. Call add_people() first.")`. -/
  | noFeatureMatrix
  /-- Raised as `ValueError("No similarity matrix available. Call add_people() first.")`. -/
  | noSimilarityMatrix
  /-- Raised as `ValueError("No cluster labels available. Call cluster_people() first.")`. -/
  | noClusterLabels
  /-- Raised as `ValueError` for an unknown clustering method string. -/
  | invalidMethod
  /-- Raised as the person-not-found `ValueError` of `find_similar_people`. -/
  | personNotFound (name : String)
  /-- Raised as `KeyError` by the column access on the empty frame. -/
  | keyError
  /-- Raised as `IndexError` by an out-of-range positional lookup. -/
  | indexError
  /-- Raised as `TypeError` or `AttributeError` when `None` is used where a frame is needed. -/
  | attributeError
  /-- Raised as `NotFittedError` by `get_feature_names_out` on an unfitted vectorizer. -/
  | notFitted
  /-- Raised as a `ValueError` inside `TfidfVectorizer.fit_transform`. -/
  | sklearnValueError (msg : String)
deriving DecidableEq

/-- Model of the third-party sklearn entry points used by the engine.
`kmeans` takes the feature matrix, `n_clusters`, the `random_state` argument
(`some s` for a fixed seed, `none` for unseeded) and the ambient process RNG
state that an unseeded run would draw from.  `tfidf` returns the fitted
vocabulary (column names, in column order) and the TF-IDF matrix, or the
message of the `ValueError` it raises. -/
structure SklearnOracle where
  tfidf : List String → Except String (List String × List (List ℚ))
  kmeans : List (List ℚ) → ℕ → Option ℕ → ℕ → List ℕ
  hier : List (List ℚ) → ℕ → List ℕ
  sqrtA : ℚ → ℚ

/-- Mutable attribute state of a `PeopleNetworking` instance.  `fitted_vocab`
is the fitted vocabulary held by `self.vectorizer` and `scaler_stats` the
per-column `(mean_, scale_)` statistics held by `self.scaler`. -/
structure EngineState where
  people_data : Option (List (String × String))
  feature_matrix : Option (List (List ℚ))
  similarity_matrix : Option (List (List ℚ))
  cluster_labels : Option (List ℕ)
  fitted_vocab : Option (List String)
  scaler_stats : Option (List (ℚ × ℚ))
deriving DecidableEq

/-- Freshly constructed instance: every artifact attribute is `None`. -/
def initState : EngineState :=
  { people_data := none, feature_matrix := none, similarity_matrix := none
    cluster_labels := none, fitted_vocab := none, scaler_stats := none }

/-- Arithmetic mean of a list of rationals (`np.mean`); `0` on `[]`. -/
def listMean (xs : List ℚ) : ℚ := xs.sum / xs.length

/-- Population variance (`np.var`, `ddof=0`). -/
def listVar (xs : List ℚ) : ℚ :=
  ((xs.map fun x => (x - listMean xs) ^ 2).sum) / xs.length

/-- Column `j` of a row-major matrix. -/
def colAt (j : ℕ) (m : List (List ℚ)) : List ℚ := m.map fun r => r.getD j 0

/-- Number of columns of a row-major matrix (length of its first row). -/
def numCols (m : List (List ℚ)) : ℕ := (m.headD []).length

/-- Scale factor used by `StandardScaler` for one column:
`scale_ = _handle_zeros_in_scale(sqrt(var_))`, so a zero-variance column gets
scale `1` instead of dividing by zero. -/
def scalerScale (O : SklearnOracle) (xs : List ℚ) : ℚ :=
  if listVar xs = 0 then 1 else O.sqrtA (listVar xs)

/-- Model of `StandardScaler().fit_transform`: every entry becomes
`(x - mean_col) / scale_col`. -/
def standardScale (O : SklearnOracle) (m : List (List ℚ)) : List (List ℚ) :=
  m.map fun r =>
    (List.range (numCols m)).map fun j =>
      (r.getD j 0 - listMean (colAt j m)) / scalerScale O (colAt j m)

/-- Fitted statistics `(mean_, scale_)` stored inside the scaler by `fit`. -/
def scalerFitStats (O : SklearnOracle) (m : List (List ℚ)) : List (ℚ × ℚ) :=
  (List.range (numCols m)).map fun j =>
    (listMean (colAt j m), scalerScale O (colAt j m))

/-- Dot product of two vectors (truncating at the shorter one). -/
def dotProd (a b : List ℚ) : ℚ := ((a.zip b).map fun p => p.1 * p.2).sum

/-- Model of `sklearn.metrics.pairwise.cosine_similarity`: entry `(i, j)` is
`⟨xᵢ, xⱼ⟩ / (‖xᵢ‖ ‖xⱼ‖)` with the norms `‖x‖ = sqrt ⟨x, x⟩` taken through the
abstract square root.  No claim depends on the resulting values. -/
def cosineSim (O : SklearnOracle) (m : List (List ℚ)) : List (List ℚ) :=
  m.map fun r1 => m.map fun r2 =>
    dotProd r1 r2 / (O.sqrtA (dotProd r1 r1) * O.sqrtA (dotProd r2 r2))

/-- Ascending comparison used to model `np.argsort xs`: index `i` precedes
index `j` when its value is smaller, with index order breaking ties (numpy's
sort is stable on the arrays at hand). -/
def ascLex (xs : List ℚ) (i j : ℕ) : Prop :=
  xs.getD i 0 < xs.getD j 0 ∨ (xs.getD i 0 = xs.getD j 0 ∧ i ≤ j)

instance (xs : List ℚ) : DecidableRel (ascLex xs) := fun i j => by
  unfold ascLex; infer_instance

instance (xs : List ℚ) : IsTotal ℕ (ascLex xs) where
  total i j := by
    rcases lt_trichotomy (xs.getD i 0) (xs.getD j 0) with h | h | h
    · exact Or.inl (Or.inl h)
    · rcases Nat.le_total i j with hij | hij
      · exact Or.inl (Or.inr ⟨h, hij⟩)
      · exact Or.inr (Or.inr ⟨h.symm, hij⟩)
    · exact Or.inr (Or.inl h)

instance (xs : List ℚ) : IsTrans ℕ (ascLex xs) where
  trans i j k hij hjk := by
    rcases hij with h1 | ⟨e1, l1⟩
    · rcases hjk with h2 | ⟨e2, _⟩
      · exact Or.inl (h1.trans h2)
      · exact Or.inl (e2 ▸ h1)
    · rcases hjk with h2 | ⟨e2, l2⟩
      · exact Or.inl (e1 ▸ h2)
      · exact Or.inr ⟨e1.trans e2, l1.trans l2⟩

/-- Model of `np.argsort xs` (ascending): the indices `0 .. xs.length - 1`
sorted by value, ties by index. -/
def argsortAsc (xs : List ℚ) : List ℕ :=
  List.insertionSort (ascLex xs) (List.range xs.length)

/-- Sequential effectful map: the model of a Python `for` loop that builds a
list and lets the first raised exception propagate. -/
def mapOrFail (f : α → Except EngineError β) : List α → Except EngineError (List β)
  | [] => .ok []
  | a :: l =>
    match f a with
    | .error e => .error e
    | .ok b =>
      match mapOrFail f l with
      | .error e => .error e
      | .ok bs => .ok (b :: bs)

/-- Names column of `people_data`. -/
def peopleNames (ps : List (String × String)) : List String := ps.map fun p => p.1

/-- Model of `_vectorize_preferences` (lines 68-80): TF-IDF fit/transform,
standard scaling into `feature_matrix`, then the cosine `similarity_matrix`.
On the empty frame, `self.people_data['preferences']` raises `KeyError`
before any artifact is touched. -/
def vectorize_preferences (O : SklearnOracle) (st : EngineState) :
    Except EngineError Unit × EngineState :=
  match st.people_data with
  | none => (.error .noPeopleData, st)
  | some ps =>
    if ps.isEmpty then (.error .keyError, st)
    else
      match O.tfidf (ps.map fun p => p.2) with
      | .error m => (.error (.sklearnValueError m), st)
      | .ok (vocab, tm) =>
        let scaled := standardScale O tm
        let st1 := { st with fitted_vocab := some vocab }
        let st2 := { st1 with
          scaler_stats := some (scalerFitStats O tm)
          feature_matrix := some scaled }
        let st3 := { st2 with similarity_matrix := some (cosineSim O scaled) }
        (.ok (), st3)

/-- Model of `add_people` (lines 53-66): `self.people_data` is assigned
first, then `_vectorize_preferences` runs; an exception raised there leaves
the new `people_data` in place. -/
def add_people (O : SklearnOracle) (prefs : List (String × String))
    (st : EngineState) : Except EngineError Unit × EngineState :=
  vectorize_preferences O { st with people_data := some prefs }

/-- Model of the mapping-building loop of `cluster_people` (lines 106-108):
`cluster_mapping[name] = int(self.cluster_labels[i])`; indexing past the end
of the label vector raises `IndexError`. -/
def mkClusterMapping (ps : List (String × String)) (labels : List ℕ) :
    Except EngineError (List (String × ℕ)) :=
  if ps.length ≤ labels.length then .ok ((peopleNames ps).zip labels)
  else .error .indexError

/-- Model of `cluster_people` (lines 82-110).  `ent` is the ambient process
RNG state an unseeded sklearn run would consume; the source pins
`random_state=42`, which is passed as `some 42`. -/
def cluster_people (O : SklearnOracle) (ent : ℕ) (st : EngineState)
    (n_clusters : ℕ) (method : String) :
    Except EngineError (List (String × ℕ)) × EngineState :=
  match st.feature_matrix with
  | none => (.error .noFeatureMatrix, st)
  | some fm =>
    if method = "kmeans" then
      let labels := O.kmeans fm n_clusters (some 42) ent
      let st1 := { st with cluster_labels := some labels }
      match st1.people_data with
      | none => (.error .attributeError, st1)
      | some ps => (mkClusterMapping ps labels, st1)
    else if method = "hierarchical" then
      let labels := O.hier fm n_clusters
      let st1 := { st with cluster_labels := some labels }
      match st1.people_data with
      | none => (.error .attributeError, st1)
      | some ps => (mkClusterMapping ps labels, st1)
    else (.error .invalidMethod, st)

/-- Model of `find_similar_people` (lines 112-149):
`np.argsort(similarities)[::-1][1:k+1]`, then names and scores are read off
positionally (`iloc` raising `IndexError` out of range). -/
def find_similar_people (st : EngineState) (person_name : String) (k : ℕ) :
    Except EngineError (List (String × ℚ)) :=
  match st.similarity_matrix with
  | none => .error .noSimilarityMatrix
  | some sim =>
    match st.people_data with
    | none => .error .attributeError
    | some ps =>
      match ps.findIdx? (fun p => p.1 == person_name) with
      | none => .error (.personNotFound person_name)
      | some person_idx =>
        match sim[person_idx]? with
        | none => .error .indexError
        | some row =>
          let chosen := ((argsortAsc row).reverse.drop 1).take k
          mapOrFail (fun i =>
            match ps[i]? with
            | none => .error .indexError
            | some p => .ok (p.1, row.getD i 0)) chosen

/-- Upper-triangle index pairs `(i, j)`, `i < j < n`, generated exactly like
the nested loops `for i in range(n): for j in range(i+1, n)`. -/
def pairIndices (n : ℕ) : List (ℕ × ℕ) :=
  (List.range n).flatMap fun i =>
    (List.range' (i + 1) (n - (i + 1))).map fun j => (i, j)

/-- Similarity score of an index pair, `self.similarity_matrix[i, j]`. -/
def scoreAt (sim : List (List ℚ)) (ij : ℕ × ℕ) : ℚ :=
  (sim.getD ij.1 []).getD ij.2 0

/-- Checked read of `self.similarity_matrix[i, j]` (numpy raises
`IndexError` out of range). -/
def fetchSim (sim : List (List ℚ)) (i j : ℕ) : Except EngineError ℚ :=
  match sim[i]? with
  | none => .error .indexError
  | some r =>
    match r[j]? with
    | none => .error .indexError
    | some v => .ok v

/-- Descending order used to model the stable
`similar_pairs.sort(key=lambda x: x[2], reverse=True)`: higher score first,
ties in generation order, which is lexicographic `(i, j)` order. -/
def pairOrder (sim : List (List ℚ)) (a b : ℕ × ℕ) : Prop :=
  scoreAt sim b < scoreAt sim a ∨
    (scoreAt sim a = scoreAt sim b ∧ (a.1 < b.1 ∨ (a.1 = b.1 ∧ a.2 ≤ b.2)))

instance (sim : List (List ℚ)) : DecidableRel (pairOrder sim) := fun a b => by
  unfold pairOrder; infer_instance

/-- Triple `(person1, person2, similarity)` built from an index pair. -/
def pairTriple (ps : List (String × String)) (sim : List (List ℚ))
    (ij : ℕ × ℕ) : String × String × ℚ :=
  ((ps.getD ij.1 ("", "")).1, (ps.getD ij.2 ("", "")).1, scoreAt sim ij)

/-- Model of `find_top_k_similar_pairs` (lines 151-177): build every upper
triangle triple (the pass that can raise `IndexError` on a ragged stale
matrix), stable-sort descending by score, keep the first `k`. -/
def find_top_k_similar_pairs (st : EngineState) (k : ℕ) :
    Except EngineError (List (String × String × ℚ)) :=
  match st.similarity_matrix with
  | none => .error .noSimilarityMatrix
  | some sim =>
    match st.people_data with
    | none => .error .attributeError
    | some ps =>
      match mapOrFail (fun ij => fetchSim sim ij.1 ij.2) (pairIndices ps.length) with
      | .error e => .error e
      | .ok _ =>
        .ok (((List.insertionSort (pairOrder sim) (pairIndices ps.length)).take k).map
          (pairTriple ps sim))

/-- Model of the member-collecting loop of `get_cluster_members`
(lines 192-195): scan the labels with their position, and for a matching
label read the name at that position (`iloc` raising `IndexError` when the
stale label vector is longer than the current frame). -/
def collectMembers (ps : List (String × String)) (cid : ℕ) :
    ℕ → List ℕ → Except EngineError (List String)
  | _, [] => .ok []
  | i, l :: ls =>
    if l = cid then
      match ps[i]? with
      | none => .error .indexError
      | some p =>
        match collectMembers ps cid (i + 1) ls with
        | .error e => .error e
        | .ok rest => .ok (p.1 :: rest)
    else collectMembers ps cid (i + 1) ls

/-- Model of `get_cluster_members` (lines 179-197). -/
def get_cluster_members (st : EngineState) (cluster_id : ℕ) :
    Except EngineError (List String) :=
  match st.cluster_labels with
  | none => .error .noClusterLabels
  | some labels =>
    match st.people_data with
    | none => .error .attributeError
    | some ps => collectMembers ps cluster_id 0 labels

/-- Per-column importance scores `np.std(self.feature_matrix, axis=0)`:
the standard deviation `sqrt (var)` of each column, through the abstract
square root. -/
def importances (O : SklearnOracle) (fm : List (List ℚ)) : List ℚ :=
  (List.range (numCols fm)).map fun j => O.sqrtA (listVar (colAt j fm))

/-- Model of `get_feature_importance` (lines 234-255):
`np.argsort(feature_importance)[::-1][:n_features]`, names read from the
fitted vocabulary (`get_feature_names_out`). -/
def get_feature_importance (O : SklearnOracle) (st : EngineState)
    (n_features : ℕ) : Except EngineError (List (String × ℚ)) :=
  match st.feature_matrix with
  | none => .error .noFeatureMatrix
  | some fm =>
    match st.fitted_vocab with
    | none => .error .notFitted
    | some vocab =>
      let imp := importances O fm
      let top := (argsortAsc imp).reverse.take n_features
      mapOrFail (fun i =>
        match vocab[i]? with
        | none => .error .indexError
        | some t => .ok (t, imp.getD i 0)) top

end PeopleNet

namespace PeopleNet

/-- Concrete oracle used to evaluate scenarios: every document gets the same
one-term TF-IDF row, `kmeans` assigns point `i` to cluster `i % n_clusters`
(one point per cluster when `n_clusters` equals the corpus size), and the
abstract square root is instantiated with the identity. -/
def sampleOracle : SklearnOracle :=
  { tfidf := fun docs => .ok (["aa"], docs.map fun _ => [1])
    kmeans := fun fm nc _ _ => (List.range fm.length).map fun i => i % nc
    hier := fun fm nc => (List.range fm.length).map fun i => i % nc
    sqrtA := fun q => q }

/-- State after ingesting the first two-person corpus. -/
def stIngest1 : EngineState :=
  (add_people sampleOracle [("A", "x"), ("B", "y")] initState).2

/-- State after clustering the first corpus into two clusters. -/
def stClustered : EngineState :=
  (cluster_people sampleOracle 0 stIngest1 2 "kmeans").2

/-- State after re-ingesting a second two-person corpus on top of the
clustering of the first. -/
def stReingested : EngineState :=
  (add_people sampleOracle [("C", "x"), ("D", "y")] stClustered).2

/-- C1, counterexample: after `cluster_people` on corpus `{A, B}` and a
re-ingestion of corpus `{C, D}`, `get_cluster_members 0` does not fail with
any stale-artifact error: it silently answers `["C"]`, applying the labels
computed from the previous corpus to the names of the new one. -/
theorem get_cluster_members_after_reingest_returns_ok :
    get_cluster_members stReingested 0 = .ok ["C"] ∧
    stClustered.cluster_labels = some [0, 1] ∧
    stReingested.cluster_labels = some [0, 1] := by decide

/-- C1, amended: `add_people` never touches `cluster_labels` (there is no
corpus versioning), so after re-ingestion the stale labels of the previous
clustering persist and `get_cluster_members` evaluates them against the new
corpus's names instead of failing. -/
theorem add_people_preserves_cluster_labels (O : SklearnOracle)
    (prefs : List (String × String)) (st : EngineState) :
    ((add_people O prefs st).2).cluster_labels = st.cluster_labels ∧
    ((add_people O prefs st).2).people_data = some prefs ∧
    ∀ labels cid, st.cluster_labels = some labels →
      get_cluster_members (add_people O prefs st).2 cid =
        collectMembers prefs cid 0 labels := by
  have hbase : ((add_people O prefs st).2).cluster_labels = st.cluster_labels ∧
      ((add_people O prefs st).2).people_data = some prefs := by
    unfold add_people vectorize_preferences
    rcases hemp : prefs.isEmpty with _ | _
    · rcases htf : O.tfidf (prefs.map fun p => p.2) with m | ⟨vocab, tm⟩ <;>
        simp [hemp, htf]
    · simp [hemp]
  refine ⟨hbase.1, hbase.2, ?_⟩
  intro labels cid hl
  unfold get_cluster_members
  rw [hbase.1, hbase.2, hl]

/-- C1, amended, witnessed on the concrete scenario: the members query on
the re-ingested state is exactly the stale labels `[0, 1]` filtered against
the new corpus `{C, D}`. -/
theorem add_people_preserves_cluster_labels_witness :
    get_cluster_members stReingested 0 =
      collectMembers [("C", "x"), ("D", "y")] 0 0 [0, 1] :=
  (add_people_preserves_cluster_labels sampleOracle [("C", "x"), ("D", "y")]
    stClustered).2.2 [0, 1] 0 (by decide)

/-- C2, counterexample: `add_people` is not atomic.  Called with the empty
corpus on a fresh engine it raises (`self.people_data['preferences']` is a
`KeyError` on a frame with no columns), yet `people_data` has already been
overwritten, so the state after the raise differs from the state before. -/
theorem add_people_empty_corpus_not_atomic :
    (add_people sampleOracle [] initState).1 = .error .keyError ∧
    (add_people sampleOracle [] initState).2 ≠ initState ∧
    (add_people sampleOracle [] initState).2 =
      { initState with people_data := some ([] : List (String × String)) } := by
  decide

/-- Helper: a list whose squared deviations from `m` sum to zero is constant
at `m`. -/
theorem eq_of_sum_sq_eq_zero {m : ℚ} :
    ∀ {xs : List ℚ}, ((xs.map fun x => (x - m) ^ 2).sum = 0) →
      ∀ x ∈ xs, x = m := by
  intro xs
  induction xs with
  | nil => simp
  | cons a l ih =>
    intro h x hx
    have hs : 0 ≤ (l.map fun x => (x - m) ^ 2).sum := by
      apply List.sum_nonneg
      intro y hy
      obtain ⟨z, _, rfl⟩ := List.mem_map.mp hy
      positivity
    have ha : 0 ≤ (a - m) ^ 2 := sq_nonneg _
    simp only [List.map_cons, List.sum_cons] at h
    have h1 : (a - m) ^ 2 = 0 := by linarith
    have h2 : (l.map fun x => (x - m) ^ 2).sum = 0 := by linarith
    rcases List.mem_cons.mp hx with rfl | hx'
    · have := (pow_eq_zero_iff two_ne_zero).mp h1
      linarith [sub_eq_zero.mp this]
    · exact ih h2 x hx'

/-- Helper: every element of a zero-variance column equals the column mean. -/
theorem mem_eq_mean_of_listVar_zero {xs : List ℚ} (h : listVar xs = 0) :
    ∀ x ∈ xs, x = listMean xs := by
  rcases xs with _ | ⟨a, l⟩
  · simp
  · have hlen : ((a :: l).length : ℚ) ≠ 0 := by
      simp only [List.length_cons, Nat.cast_add, Nat.cast_one]
      positivity
    have hsum : (((a :: l).map fun x => (x - listMean (a :: l)) ^ 2).sum) = 0 := by
      have := h
      unfold listVar at this
      rcases div_eq_zero_iff.mp this with h0 | h0
      · exact h0
      · exact absurd h0 hlen
    exact eq_of_sum_sq_eq_zero hsum

/-- C10: a zero-variance column does not make normalization divide by zero or
raise: its scale factor is `1` (sklearn's `_handle_zeros_in_scale`), its
entries all scale to `0`, and the output keeps the input's shape, the other
columns being scaled as usual by the definition of `standardScale`. -/
theorem standardScale_zero_variance_column (O : SklearnOracle)
    (fm : List (List ℚ)) (j : ℕ) (hj : j < numCols fm)
    (hvar : listVar (colAt j fm) = 0) :
    scalerScale O (colAt j fm) = 1 ∧
    (standardScale O fm).length = fm.length ∧
    (∀ r ∈ standardScale O fm, r.length = numCols fm) ∧
    (∀ r ∈ standardScale O fm, r.getD j 0 = 0) := by
  refine ⟨by simp [scalerScale, hvar], by simp [standardScale], ?_, ?_⟩
  · intro r hr
    obtain ⟨r0, _, rfl⟩ := List.mem_map.mp hr
    simp
  · intro r hr
    obtain ⟨r0, hr0, rfl⟩ := List.mem_map.mp hr
    have hmem : r0.getD j 0 ∈ colAt j fm := by
      unfold colAt
      exact List.mem_map.mpr ⟨r0, hr0, rfl⟩
    have hval : r0.getD j 0 = listMean (colAt j fm) :=
      mem_eq_mean_of_listVar_zero hvar _ hmem
    have hget : ((List.range (numCols fm)).map fun j' =>
        (r0.getD j' 0 - listMean (colAt j' fm)) / scalerScale O (colAt j' fm)).getD j 0 =
        (r0.getD j 0 - listMean (colAt j fm)) / scalerScale O (colAt j fm) := by
      rw [List.getD_eq_getElem?_getD]
      rw [List.getElem?_map]
      simp [List.getElem?_range hj]
    rw [hget, hval, sub_self, zero_div]

/-- C10, witness: on the matrix `[[1, 2], [1, 3]]` whose column 0 is
constant, the scale is 1 and column 0 of the scaled output is all zeros. -/
theorem standardScale_zero_variance_column_witness :
    scalerScale sampleOracle (colAt 0 [[1, 2], [1, 3]]) = 1 ∧
    (standardScale sampleOracle [[1, 2], [1, 3]]).length =
      ([[1, 2], [1, 3]] : List (List ℚ)).length ∧
    (∀ r ∈ standardScale sampleOracle [[1, 2], [1, 3]],
      r.length = numCols [[1, 2], [1, 3]]) ∧
    (∀ r ∈ standardScale sampleOracle [[1, 2], [1, 3]], r.getD 0 0 = 0) :=
  standardScale_zero_variance_column sampleOracle [[1, 2], [1, 3]] 0
    (by decide) (by norm_num [listVar, listMean, colAt])

/-- C7: with `random_state` pinned to 42 and a seeded sklearn `KMeans` being
a function of its data, parameters and seed alone (hypothesis `hdet`), two
`cluster_people` runs on the same state return identical mappings and
states no matter what the ambient process RNG state is. -/
theorem cluster_people_kmeans_deterministic (O : SklearnOracle)
    (hdet : ∀ fm nc s e e', O.kmeans fm nc (some s) e = O.kmeans fm nc (some s) e')
    (st : EngineState) (n : ℕ) (e e' : ℕ) :
    cluster_people O e st n "kmeans" = cluster_people O e' st n "kmeans" := by
  unfold cluster_people
  cases hfm : st.feature_matrix with
  | none => rfl
  | some fm => simp [hdet fm n 42 e e']

/-- C7, witness: the two-person scenario clustered twice with different
ambient RNG states gives identical results. -/
theorem cluster_people_kmeans_deterministic_witness :
    cluster_people sampleOracle 0 stIngest1 2 "kmeans" =
      cluster_people sampleOracle 1 stIngest1 2 "kmeans" :=
  cluster_people_kmeans_deterministic sampleOracle
    (fun _ _ _ _ _ => rfl) stIngest1 2 0 1

/-- Vectorizer model that fails exactly on a three-document corpus
(standing for a re-ingest of three all-stopword texts, on which
`TfidfVectorizer.fit_transform` raises its empty-vocabulary `ValueError`)
and succeeds otherwise. -/
def tfidfFailingOnThree (docs : List String) :
    Except String (List String × List (List ℚ)) :=
  if docs.length = 3 then
    .error "empty vocabulary; perhaps the documents only contain stop words"
  else .ok (["aa"], docs.map fun _ => [1])

/-- Oracle bundling `tfidfFailingOnThree` with the sample clusterers. -/
def failingOracle : SklearnOracle :=
  { sampleOracle with tfidf := tfidfFailingOnThree }

/-- State after a successful two-person ingestion through `failingOracle`. -/
def stTwoOk : EngineState :=
  (add_people failingOracle [("A", "x"), ("B", "y")] initState).2

/-- State after a subsequent FAILED three-person re-ingestion: `add_people`
has overwritten `people_data` (three rows) while the feature and similarity
matrices still describe the previous two-person corpus.  This state is
reachable through the public API alone. -/
def stMixed : EngineState :=
  (add_people failingOracle
    [("C", "the"), ("D", "the"), ("E", "the")] stTwoOk).2

/-- Helper: the mixed state evaluated — three people beside the stale
two-row artifacts of the earlier corpus. -/
theorem stMixed_eq :
    stMixed = { people_data := some [("C", "the"), ("D", "the"), ("E", "the")]
                feature_matrix := some [[0], [0]]
                similarity_matrix := some [[0, 0], [0, 0]]
                cluster_labels := none
                fitted_vocab := some ["aa"]
                scaler_stats := some [(1, 1)] } := by
  unfold stMixed stTwoOk add_people vectorize_preferences failingOracle
    sampleOracle tfidfFailingOnThree
  norm_num [standardScale, cosineSim, scalerFitStats, scalerScale, listVar,
    listMean, colAt, numCols, dotProd, initState, List.range_succ]

/-- C2, amended: `cluster_people` is atomic only on the error paths that run
before `fit_predict` (no feature matrix; invalid method string on a state
that has one) — those return the state unchanged.  On the mapping path it is
NOT atomic: `self.cluster_labels` is assigned (line 103) before the
name-to-label loop, so when the current frame is longer than the label
vector — reachable after a failed `add_people` left a longer `people_data`
beside the stale feature matrix — the loop raises `IndexError` with
`cluster_labels` already overwritten. -/
theorem cluster_people_mutation_characterization (O : SklearnOracle) (e : ℕ)
    (st : EngineState) (n : ℕ) (fm : List (List ℚ))
    (ps : List (String × String))
    (hfm : st.feature_matrix = some fm) (hp : st.people_data = some ps)
    (hshort : (O.kmeans fm n (some 42) e).length < ps.length) :
    ((cluster_people O e st n "kmeans").1 = .error .indexError ∧
      (cluster_people O e st n "kmeans").2 =
        { st with cluster_labels := some (O.kmeans fm n (some 42) e) }) ∧
    (∀ st' : EngineState, st'.feature_matrix = none → ∀ method,
      cluster_people O e st' n method = (.error .noFeatureMatrix, st')) ∧
    (∀ st' : EngineState, ∀ fm', st'.feature_matrix = some fm' →
      ∀ method, method ≠ "kmeans" → method ≠ "hierarchical" →
      cluster_people O e st' n method = (.error .invalidMethod, st')) := by
  refine ⟨?_, ?_, ?_⟩
  · unfold cluster_people
    simp only [hfm, if_true]
    simp only [hp, mkClusterMapping]
    rw [if_neg (by omega)]
    exact ⟨rfl, trivial⟩
  · intro st' hnone method
    unfold cluster_people
    simp only [hnone]
  · intro st' fm' hsome method h1 h2
    unfold cluster_people
    simp only [hsome]
    rw [if_neg h1, if_neg h2]

/-- C2, amended, witness: from the reachable mixed state, the k-means call
raises `IndexError` with `cluster_labels` freshly overwritten, while the
pre-`fit_predict` error paths leave any state unchanged. -/
theorem cluster_people_mutation_characterization_witness :
    ((cluster_people failingOracle 0 stMixed 2 "kmeans").1 =
        .error .indexError ∧
      (cluster_people failingOracle 0 stMixed 2 "kmeans").2 =
        { stMixed with
          cluster_labels := some (failingOracle.kmeans [[0], [0]] 2 (some 42) 0) }) ∧
    (∀ st' : EngineState, st'.feature_matrix = none → ∀ method,
      cluster_people failingOracle 0 st' 2 method =
        (.error .noFeatureMatrix, st')) ∧
    (∀ st' : EngineState, ∀ fm', st'.feature_matrix = some fm' →
      ∀ method, method ≠ "kmeans" → method ≠ "hierarchical" →
      cluster_people failingOracle 0 st' 2 method =
        (.error .invalidMethod, st')) :=
  cluster_people_mutation_characterization failingOracle 0 stMixed 2
    [[0], [0]] [("C", "the"), ("D", "the"), ("E", "the")]
    (by rw [stMixed_eq]) (by rw [stMixed_eq]) (by decide)

/-- Oracle whose k-means labels the points with descending cluster indices,
one centroid numbering sklearn's seeded run may produce. -/
def reverseOracle : SklearnOracle :=
  { sampleOracle with kmeans := fun fm _ _ _ => (List.range fm.length).reverse }

/-- State with a two-row feature matrix and a two-person frame, as produced
by an ingestion (used as a concrete instantiation point). -/
def stFeatured : EngineState :=
  { people_data := some [("A", "x"), ("B", "y")]
    feature_matrix := some [[0], [0]]
    similarity_matrix := none, cluster_labels := none
    fitted_vocab := none, scaler_stats := none }

/-- C4, counterexample: when the clustering algorithm labels the two points
`[1, 0]`, `cluster_people` returns the mapping `A ↦ 1, B ↦ 0`: the first
entity in ingestion order has label 1, not 0, because the code performs no
renumbering of the algorithm's internal centroid indices. -/
theorem cluster_people_first_label_not_zero :
    (cluster_people reverseOracle 0 stFeatured 2 "kmeans").1 =
      .ok [("A", 1), ("B", 0)] ∧
    (cluster_people reverseOracle 0 stFeatured 2 "kmeans").2.cluster_labels =
      some [1, 0] := by decide

/-- C4, amended: `cluster_people` applies no renumbering at all: the mapping
it returns pairs the names, in ingestion order, with the clustering
algorithm's raw label vector verbatim (`int(self.cluster_labels[i])`), and
`cluster_labels` stores that raw vector; contiguity or first-appearance
numbering is whatever the algorithm happens to emit. -/
theorem cluster_people_kmeans_raw_labels (O : SklearnOracle) (e : ℕ)
    (st : EngineState) (n : ℕ) (fm : List (List ℚ))
    (ps : List (String × String))
    (hfm : st.feature_matrix = some fm) (hp : st.people_data = some ps)
    (hlen : ps.length ≤ (O.kmeans fm n (some 42) e).length) :
    (cluster_people O e st n "kmeans").1 =
      .ok ((peopleNames ps).zip (O.kmeans fm n (some 42) e)) ∧
    (cluster_people O e st n "kmeans").2.cluster_labels =
      some (O.kmeans fm n (some 42) e) := by
  unfold cluster_people mkClusterMapping
  simp [hfm, hp, hlen]

/-- C4, amended, witness: the raw `[1, 0]` labelling is passed through on
the concrete two-person state. -/
theorem cluster_people_kmeans_raw_labels_witness :
    (cluster_people reverseOracle 0 stFeatured 2 "kmeans").1 =
      .ok ((peopleNames [("A", "x"), ("B", "y")]).zip
        (reverseOracle.kmeans [[0], [0]] 2 (some 42) 0)) ∧
    (cluster_people reverseOracle 0 stFeatured 2 "kmeans").2.cluster_labels =
      some (reverseOracle.kmeans [[0], [0]] 2 (some 42) 0) :=
  cluster_people_kmeans_raw_labels reverseOracle 0 stFeatured 2 [[0], [0]]
    [("A", "x"), ("B", "y")] rfl rfl (by decide)

/-- State holding a single-person corpus with its 1×1 similarity matrix. -/
def stSolo : EngineState :=
  { people_data := some [("A", "solo")]
    feature_matrix := some [[0]]
    similarity_matrix := some [[0]]
    cluster_labels := none, fitted_vocab := none, scaler_stats := none }

/-- C8: `find_similar_people` raises the person-not-found `ValueError` for a
name outside the corpus, and on a one-person corpus the sole entity gets an
empty result list, not an error (the `[1:k+1]` slice of a length-1 argsort
is empty). -/
theorem find_similar_people_unknown_or_singleton (st : EngineState)
    (sim : List (List ℚ)) (ps : List (String × String))
    (hs : st.similarity_matrix = some sim) (hp : st.people_data = some ps) :
    (∀ name k, name ∉ peopleNames ps →
      find_similar_people st name k = .error (.personNotFound name)) ∧
    (∀ nm pr s k, ps = [(nm, pr)] → sim = [[s]] →
      find_similar_people st nm k = .ok []) := by
  constructor
  · intro name k hname
    unfold find_similar_people
    simp only [hs, hp]
    have hfind : ps.findIdx? (fun p => p.1 == name) = none := by
      rw [List.findIdx?_eq_none_iff]
      intro p hpmem
      have : p.1 ∈ peopleNames ps := List.mem_map.mpr ⟨p, hpmem, rfl⟩
      simp only [beq_eq_false_iff_ne, ne_eq]
      intro hcontra
      exact hname (hcontra ▸ this)
    rw [hfind]
  · intro nm pr s k hps hsim
    subst hps; subst hsim
    unfold find_similar_people
    simp [hs, hp, argsortAsc, mapOrFail]

/-- C8, witness: on the one-person state, an unknown name raises
person-not-found and the sole name returns the empty list. -/
theorem find_similar_people_unknown_or_singleton_witness :
    find_similar_people stSolo "Zed" 5 = .error (.personNotFound "Zed") ∧
    find_similar_people stSolo "A" 5 = .ok [] :=
  ⟨(find_similar_people_unknown_or_singleton stSolo [[0]] [("A", "solo")]
      rfl rfl).1 "Zed" 5 (by decide),
   (find_similar_people_unknown_or_singleton stSolo [[0]] [("A", "solo")]
      rfl rfl).2 "A" "solo" 0 5 rfl rfl⟩

/-- Helper: the argsort is a permutation of the index range. -/
theorem argsortAsc_perm (xs : List ℚ) :
    List.Perm (argsortAsc xs) (List.range xs.length) :=
  List.perm_insertionSort _ _

/-- Helper: the argsort has one entry per element. -/
theorem argsortAsc_length (xs : List ℚ) : (argsortAsc xs).length = xs.length := by
  rw [(argsortAsc_perm xs).length_eq, List.length_range]

/-- Helper: argsort entries are in-range indices. -/
theorem mem_argsortAsc {xs : List ℚ} {i : ℕ} (h : i ∈ argsortAsc xs) :
    i < xs.length := by
  have := (argsortAsc_perm xs).mem_iff.mp h
  simpa using this

/-- Helper: the argsort is sorted for the value-then-index order. -/
theorem argsortAsc_sorted (xs : List ℚ) :
    (argsortAsc xs).Pairwise (ascLex xs) :=
  List.sorted_insertionSort _ _

/-- Helper: the reversed argsort (`[::-1]`) is sorted for the reversed
order: larger value first, ties with the larger index first. -/
theorem argsortAsc_reverse_pairwise (xs : List ℚ) :
    (argsortAsc xs).reverse.Pairwise (fun i j => ascLex xs j i) := by
  rw [List.pairwise_reverse]
  exact argsortAsc_sorted xs

/-- Helper: a loop body that succeeds on every element makes the whole loop
return the mapped list. -/
theorem mapOrFail_eq_ok {α β : Type} (f : α → Except EngineError β)
    (g : α → β) :
    ∀ l : List α, (∀ a ∈ l, f a = .ok (g a)) →
      mapOrFail f l = .ok (l.map g) := by
  intro l
  induction l with
  | nil => intro _; rfl
  | cons a t ih =>
    intro h
    have ha := h a (List.mem_cons_self a t)
    have ht := ih fun b hb => h b (List.mem_cons_of_mem a hb)
    unfold mapOrFail
    rw [ha, ht]
    simp

/-- C3, amended: for a found person with a row of consistent width,
`find_similar_people` returns exactly the `[1:k+1]` slice of the reversed
stable argsort mapped to `(name, score)` pairs: `min k (N - 1)` entries,
sorted by score descending with ties broken by the LARGER original index
first (reverse ingestion order, since `[::-1]` reverses the stable
ascending argsort).  The dropped head of the reversed order is the queried
person only when no later-ingested entity ties their self-similarity. -/
theorem find_similar_people_characterization (st : EngineState)
    (sim : List (List ℚ)) (ps : List (String × String)) (name : String)
    (pidx : ℕ) (row : List ℚ) (k : ℕ)
    (hs : st.similarity_matrix = some sim) (hp : st.people_data = some ps)
    (hfind : ps.findIdx? (fun p => p.1 == name) = some pidx)
    (hrow : sim[pidx]? = some row) (hlen : row.length = ps.length) :
    find_similar_people st name k =
      .ok ((((argsortAsc row).reverse.drop 1).take k).map
        fun i => ((ps.getD i ("", "")).1, row.getD i 0)) ∧
    (((argsortAsc row).reverse.drop 1).take k).length = min k (ps.length - 1) ∧
    (((argsortAsc row).reverse.drop 1).take k).Pairwise
      fun i j => ascLex row j i := by
  have hsub : (((argsortAsc row).reverse.drop 1).take k).Sublist
      (argsortAsc row).reverse :=
    (List.take_sublist _ _).trans (List.drop_sublist _ _)
  have hmemrange : ∀ i ∈ ((argsortAsc row).reverse.drop 1).take k,
      i < ps.length := by
    intro i hi
    have : i ∈ (argsortAsc row).reverse := hsub.subset hi
    exact hlen ▸ mem_argsortAsc (List.mem_reverse.mp this)
  refine ⟨?_, ?_, ?_⟩
  · unfold find_similar_people
    simp only [hs, hp, hfind, hrow]
    apply mapOrFail_eq_ok
    intro i hi
    have hilt : i < ps.length := hmemrange i hi
    rw [List.getElem?_eq_getElem hilt]
    rw [List.getD_eq_getElem _ _ hilt]
  · rw [List.length_take, List.length_drop, List.length_reverse,
      argsortAsc_length, hlen]
  · exact (argsortAsc_reverse_pairwise row).sublist hsub

/-- State after ingesting two people with identical preference text (the
TF-IDF rows coincide, so after standardization both feature rows are zero
and every similarity entry, the diagonal included, is the same). -/
def stDup : EngineState :=
  (add_people sampleOracle [("A", "pizza"), ("B", "pizza")] initState).2

/-- Helper: the duplicate-text ingestion evaluated: both scaled rows are
zero, so the similarity matrix is constant. -/
theorem stDup_eq :
    stDup = { people_data := some [("A", "pizza"), ("B", "pizza")]
              feature_matrix := some [[0], [0]]
              similarity_matrix := some [[0, 0], [0, 0]]
              cluster_labels := none
              fitted_vocab := some ["aa"]
              scaler_stats := some [(1, 1)] } := by
  unfold stDup add_people vectorize_preferences sampleOracle
  norm_num [standardScale, cosineSim, scalerFitStats, scalerScale, listVar,
    listMean, colAt, numCols, dotProd, initState, List.range_succ]

/-- C3, counterexample: on the corpus `{A ↦ "pizza", B ↦ "pizza"}` the
query `find_similar_people "A" 1` returns `[("A", 0)]` — the queried person
themselves.  The whole row ties, `[::-1]` puts the larger index first, so
the `[1:k+1]` slice drops `B` (index 1) and keeps `A` (index 0): the result
includes `name` itself and ties are broken by reverse, not original,
ingestion order. -/
theorem find_similar_people_returns_self :
    stDup.people_data = some [("A", "pizza"), ("B", "pizza")] ∧
    find_similar_people stDup "A" 1 = .ok [("A", 0)] := by
  constructor
  · rw [stDup_eq]
  · rw [stDup_eq]
    norm_num [find_similar_people, argsortAsc, List.insertionSort,
      List.orderedInsert, ascLex, mapOrFail, List.findIdx?_cons,
      List.range_succ]

/-- State holding a two-person corpus with an explicit similarity matrix,
used to instantiate the query characterizations. -/
def stPair : EngineState :=
  { people_data := some [("A", "x"), ("B", "y")]
    feature_matrix := some [[0], [0]]
    similarity_matrix := some [[1, 1/2], [1/2, 1]]
    cluster_labels := none, fitted_vocab := none, scaler_stats := none }

/-- C3, amended, witness: the characterization applied to the concrete
two-person state, queried person `A`, `k = 1`. -/
theorem find_similar_people_characterization_witness :
    find_similar_people stPair "A" 1 =
      .ok ((((argsortAsc [1, 1/2]).reverse.drop 1).take 1).map
        fun i => (([("A", "x"), ("B", "y")].getD i ("", "")).1,
          ([1, (1 : ℚ)/2]).getD i 0)) ∧
    (((argsortAsc [1, 1/2]).reverse.drop 1).take 1).length =
      min 1 ([("A", "x"), ("B", "y")].length - 1) ∧
    (((argsortAsc [1, 1/2]).reverse.drop 1).take 1).Pairwise
      (fun i j => ascLex [1, 1/2] j i) :=
  find_similar_people_characterization stPair [[1, 1/2], [1/2, 1]]
    [("A", "x"), ("B", "y")] "A" 0 [1, 1/2] 1 rfl rfl (by decide) rfl rfl

/-- Helper: one importance score per column. -/
theorem importances_length (O : SklearnOracle) (fm : List (List ℚ)) :
    (importances O fm).length = numCols fm := by
  simp [importances]

/-- C9, amended: `get_feature_importance n` returns the top-`n` vocabulary
terms ranked by the standard deviation of their normalized column,
descending, with ties broken by REVERSE vocabulary insertion order (the
stable ascending argsort is reversed by `[::-1]`). -/
theorem get_feature_importance_characterization (O : SklearnOracle)
    (st : EngineState) (fm : List (List ℚ)) (vocab : List String) (n : ℕ)
    (hf : st.feature_matrix = some fm) (hv : st.fitted_vocab = some vocab)
    (hvlen : numCols fm ≤ vocab.length) :
    get_feature_importance O st n =
      .ok (((argsortAsc (importances O fm)).reverse.take n).map
        fun i => (vocab.getD i "", (importances O fm).getD i 0)) ∧
    ((argsortAsc (importances O fm)).reverse.take n).length =
      min n (numCols fm) ∧
    ((argsortAsc (importances O fm)).reverse.take n).Pairwise
      fun i j => ascLex (importances O fm) j i := by
  have hsub : ((argsortAsc (importances O fm)).reverse.take n).Sublist
      (argsortAsc (importances O fm)).reverse := List.take_sublist _ _
  have hmemrange : ∀ i ∈ (argsortAsc (importances O fm)).reverse.take n,
      i < vocab.length := by
    intro i hi
    have hrev : i ∈ (argsortAsc (importances O fm)).reverse := hsub.subset hi
    have := mem_argsortAsc (List.mem_reverse.mp hrev)
    rw [importances_length] at this
    omega
  refine ⟨?_, ?_, ?_⟩
  · unfold get_feature_importance
    simp only [hf, hv]
    apply mapOrFail_eq_ok
    intro i hi
    have hilt : i < vocab.length := hmemrange i hi
    rw [List.getElem?_eq_getElem hilt]
    rw [List.getD_eq_getElem _ _ hilt]
  · rw [List.length_take, List.length_reverse, argsortAsc_length,
      importances_length]
  · exact (argsortAsc_reverse_pairwise _).sublist hsub

/-- Oracle producing a two-term vocabulary whose TF-IDF columns are
identical (document `i` gets the row `[i + 1, i + 1]`). -/
def dupColOracle : SklearnOracle :=
  { sampleOracle with tfidf := fun docs => .ok (["aa", "bb"],
      (List.range docs.length).map fun i => [(i : ℚ) + 1, (i : ℚ) + 1]) }

/-- State after ingesting two people through `dupColOracle`: the two scaled
feature columns are identical, so their importances tie. -/
def stTwoCols : EngineState :=
  (add_people dupColOracle [("A", "x"), ("B", "y")] initState).2

/-- Helper: the two-column ingestion evaluated. -/
theorem stTwoCols_eq :
    stTwoCols = { people_data := some [("A", "x"), ("B", "y")]
                  feature_matrix := some [[-2, -2], [2, 2]]
                  similarity_matrix := some [[1/8, -1/8], [-1/8, 1/8]]
                  cluster_labels := none
                  fitted_vocab := some ["aa", "bb"]
                  scaler_stats := some [(3/2, 1/4), (3/2, 1/4)] } := by
  unfold stTwoCols add_people vectorize_preferences dupColOracle sampleOracle
  norm_num [standardScale, cosineSim, scalerFitStats, scalerScale, listVar,
    listMean, colAt, numCols, dotProd, initState, List.range_succ]

/-- C9, counterexample: with two columns of equal importance (both scaled
columns have standard deviation 2... the same value), the code returns
`[("bb", _), ("aa", _)]` — the tie is broken by reverse vocabulary order,
not by vocabulary insertion order as claimed. -/
theorem get_feature_importance_tie_order_reversed :
    stTwoCols.fitted_vocab = some ["aa", "bb"] ∧
    get_feature_importance dupColOracle stTwoCols 2 =
      .ok [("bb", 4), ("aa", 4)] := by
  constructor
  · rw [stTwoCols_eq]
  · rw [stTwoCols_eq]
    norm_num [get_feature_importance, importances, argsortAsc,
      List.insertionSort, List.orderedInsert, ascLex, mapOrFail,
      dupColOracle, sampleOracle, listVar, listMean, colAt, numCols,
      List.range_succ]

/-- State with an explicit feature matrix and fitted vocabulary, used to
instantiate the importance characterization. -/
def stImp : EngineState :=
  { people_data := some [("A", "x"), ("B", "y")]
    feature_matrix := some [[0, 1], [0, 3]]
    similarity_matrix := none, cluster_labels := none
    fitted_vocab := some ["aa", "bb"], scaler_stats := none }

/-- C9, amended, witness: the characterization applied to the concrete
two-column state with `n = 2`. -/
theorem get_feature_importance_characterization_witness :
    get_feature_importance dupColOracle stImp 2 =
      .ok (((argsortAsc (importances dupColOracle [[0, 1], [0, 3]])).reverse.take 2).map
        fun i => (["aa", "bb"].getD i "",
          (importances dupColOracle [[0, 1], [0, 3]]).getD i 0)) ∧
    ((argsortAsc (importances dupColOracle [[0, 1], [0, 3]])).reverse.take 2).length =
      min 2 (numCols [[0, 1], [0, 3]]) ∧
    ((argsortAsc (importances dupColOracle [[0, 1], [0, 3]])).reverse.take 2).Pairwise
      (fun i j => ascLex (importances dupColOracle [[0, 1], [0, 3]]) j i) :=
  get_feature_importance_characterization dupColOracle stImp
    [[0, 1], [0, 3]] ["aa", "bb"] 2 rfl rfl (by decide)

/-- Pure value of the member-collecting loop when no index is out of range:
the names at the positions whose label matches. -/
def membersAux (ps : List (String × String)) (cid : ℕ) :
    ℕ → List ℕ → List String
  | _, [] => []
  | i, l :: ls =>
    if l = cid then (ps.getD i ("", "")).1 :: membersAux ps cid (i + 1) ls
    else membersAux ps cid (i + 1) ls

/-- Helper: with every position in range the loop succeeds and returns the
matching names. -/
theorem collectMembers_eq_ok (ps : List (String × String)) (cid : ℕ) :
    ∀ (ls : List ℕ) (i : ℕ), i + ls.length ≤ ps.length →
      collectMembers ps cid i ls = .ok (membersAux ps cid i ls) := by
  intro ls
  induction ls with
  | nil => intro i _; rfl
  | cons l t ih =>
    intro i hle
    have hi : i < ps.length := by
      simp only [List.length_cons] at hle
      omega
    have hrec := ih (i + 1) (by simp only [List.length_cons] at hle; omega)
    unfold collectMembers membersAux
    by_cases hl : l = cid
    · rw [if_pos hl, if_pos hl, List.getElem?_eq_getElem hi, hrec]
      rw [List.getD_eq_getElem _ _ hi]
    · rw [if_neg hl, if_neg hl, hrec]

/-- Helper: membership in the collected names, positionally. -/
theorem mem_membersAux (ps : List (String × String)) (cid : ℕ) :
    ∀ (ls : List ℕ) (i : ℕ) (x : String),
      x ∈ membersAux ps cid i ls ↔
        ∃ j, j < ls.length ∧ ls.getD j 0 = cid ∧
          x = (ps.getD (i + j) ("", "")).1 := by
  intro ls
  induction ls with
  | nil => intro i x; simp [membersAux]
  | cons l t ih =>
    intro i x
    unfold membersAux
    by_cases hl : l = cid
    · rw [if_pos hl]
      constructor
      · intro hx
        rcases List.mem_cons.mp hx with hx0 | hxr
        · exact ⟨0, by simp, by simpa using hl, by simpa using hx0⟩
        · obtain ⟨j, hj, hlab, hname⟩ := (ih (i + 1) x).mp hxr
          exact ⟨j + 1, by simpa using hj, by simpa using hlab,
            by simpa [Nat.add_assoc, Nat.add_comm 1 j] using hname⟩
      · rintro ⟨j, hj, hlab, hname⟩
        cases j with
        | zero =>
          simp only [Nat.add_zero] at hname
          exact List.mem_cons.mpr (Or.inl hname)
        | succ j' =>
          refine List.mem_cons.mpr (Or.inr ((ih (i + 1) x).mpr
            ⟨j', by simpa using hj, by simpa using hlab, ?_⟩))
          simpa [Nat.add_assoc, Nat.add_comm 1 j'] using hname
    · rw [if_neg hl]
      constructor
      · intro hx
        obtain ⟨j, hj, hlab, hname⟩ := (ih (i + 1) x).mp hx
        exact ⟨j + 1, by simpa using hj, by simpa using hlab,
          by simpa [Nat.add_assoc, Nat.add_comm 1 j] using hname⟩
      · rintro ⟨j, hj, hlab, hname⟩
        cases j with
        | zero =>
          simp only [List.getD_cons_zero] at hlab
          exact absurd hlab hl
        | succ j' =>
          refine (ih (i + 1) x).mpr
            ⟨j', by simpa using hj, by simpa using hlab, ?_⟩
          simpa [Nat.add_assoc, Nat.add_comm 1 j'] using hname

/-- C6: when the label vector matches the frame (one label per person, as
`fit_predict` guarantees), every label is below `n_clusters = C` (as sklearn
guarantees for both algorithms) and names are distinct (dict keys), the
member lists over ids `0 .. C-1` are returned without error, every name
belongs to some cluster's list, and no name belongs to two different
clusters' lists: the lists partition the entity set. -/
theorem get_cluster_members_partition (st : EngineState) (labels : List ℕ)
    (ps : List (String × String)) (C : ℕ)
    (hl : st.cluster_labels = some labels) (hp : st.people_data = some ps)
    (hlen : labels.length = ps.length)
    (hC : ∀ l ∈ labels, l < C)
    (hnd : (peopleNames ps).Nodup) :
    (∀ c, c < C → get_cluster_members st c = .ok (membersAux ps c 0 labels)) ∧
    (∀ x, x ∈ peopleNames ps ↔ ∃ c, c < C ∧ x ∈ membersAux ps c 0 labels) ∧
    (∀ c c', c < C → c' < C → ∀ x, x ∈ membersAux ps c 0 labels →
      x ∈ membersAux ps c' 0 labels → c = c') := by
  have hnames_len : (peopleNames ps).length = ps.length := by
    simp [peopleNames]
  have hname_at : ∀ j, j < ps.length →
      (ps.getD j ("", "")).1 = (peopleNames ps).getD j "" := by
    intro j hj
    rw [List.getD_eq_getElem _ _ hj,
      List.getD_eq_getElem _ _ (by omega : j < (peopleNames ps).length)]
    simp [peopleNames]
  refine ⟨?_, ?_, ?_⟩
  · intro c _
    unfold get_cluster_members
    rw [hl, hp]
    exact collectMembers_eq_ok ps c labels 0 (by omega)
  · intro x
    constructor
    · intro hx
      obtain ⟨m, hm, hxm⟩ := List.mem_iff_getElem.mp hx
      have hmlt : m < ps.length := by omega
      refine ⟨labels.getD m 0, ?_, ?_⟩
      · exact hC _ (by
          rw [List.getD_eq_getElem _ _ (by omega : m < labels.length)]
          exact List.getElem_mem _)
      · refine (mem_membersAux ps _ labels 0 x).mpr ⟨m, by omega, rfl, ?_⟩
        rw [Nat.zero_add, hname_at m hmlt,
          List.getD_eq_getElem _ _ (by omega : m < (peopleNames ps).length)]
        exact hxm.symm
    · rintro ⟨c, _, hx⟩
      obtain ⟨j, hj, _, hname⟩ := (mem_membersAux ps c labels 0 x).mp hx
      have hjlt : j < ps.length := by omega
      rw [Nat.zero_add] at hname
      rw [hname, hname_at j hjlt,
        List.getD_eq_getElem _ _ (by omega : j < (peopleNames ps).length)]
      exact List.getElem_mem _
  · intro c c' _ _ x hxc hxc'
    obtain ⟨j, hj, hlab, hname⟩ := (mem_membersAux ps c labels 0 x).mp hxc
    obtain ⟨j', hj', hlab', hname'⟩ := (mem_membersAux ps c' labels 0 x).mp hxc'
    rw [Nat.zero_add] at hname hname'
    have hjlt : j < ps.length := by omega
    have hjlt' : j' < ps.length := by omega
    have heq : (peopleNames ps).getD j "" = (peopleNames ps).getD j' "" := by
      rw [← hname_at j hjlt, ← hname_at j' hjlt', ← hname, ← hname']
    rw [List.getD_eq_getElem _ _ (by omega : j < (peopleNames ps).length),
      List.getD_eq_getElem _ _ (by omega : j' < (peopleNames ps).length)] at heq
    have hjj : j = j' := by
      have := List.nodup_iff_injective_getElem.mp hnd
      have hfin := @this ⟨j, by omega⟩ ⟨j', by omega⟩ heq
      simpa using hfin
    subst hjj
    rw [← hlab, ← hlab']

/-- C6, witness: on the clustered two-person scenario (labels `[0, 1]`,
`C = 2`) the partition facts hold concretely. -/
theorem get_cluster_members_partition_witness :
    (∀ c, c < 2 → get_cluster_members stClustered c =
      .ok (membersAux [("A", "x"), ("B", "y")] c 0 [0, 1])) ∧
    (∀ x, x ∈ peopleNames [("A", "x"), ("B", "y")] ↔
      ∃ c, c < 2 ∧ x ∈ membersAux [("A", "x"), ("B", "y")] c 0 [0, 1]) ∧
    (∀ c c', c < 2 → c' < 2 →
      ∀ x, x ∈ membersAux [("A", "x"), ("B", "y")] c 0 [0, 1] →
        x ∈ membersAux [("A", "x"), ("B", "y")] c' 0 [0, 1] → c = c') :=
  get_cluster_members_partition stClustered [0, 1] [("A", "x"), ("B", "y")] 2
    (by decide) (by decide) (by decide) (by decide) (by decide)

instance (sim : List (List ℚ)) : IsTotal (ℕ × ℕ) (pairOrder sim) where
  total a b := by
    rcases lt_trichotomy (scoreAt sim a) (scoreAt sim b) with h | h | h
    · exact Or.inr (Or.inl h)
    · rcases Nat.lt_trichotomy a.1 b.1 with h1 | h1 | h1
      · exact Or.inl (Or.inr ⟨h, Or.inl h1⟩)
      · rcases Nat.le_total a.2 b.2 with h2 | h2
        · exact Or.inl (Or.inr ⟨h, Or.inr ⟨h1, h2⟩⟩)
        · exact Or.inr (Or.inr ⟨h.symm, Or.inr ⟨h1.symm, h2⟩⟩)
      · exact Or.inr (Or.inr ⟨h.symm, Or.inl h1⟩)
    · exact Or.inl (Or.inl h)

instance (sim : List (List ℚ)) : IsTrans (ℕ × ℕ) (pairOrder sim) where
  trans a b c hab hbc := by
    rcases hab with h1 | ⟨e1, l1⟩
    · rcases hbc with h2 | ⟨e2, _⟩
      · exact Or.inl (h2.trans h1)
      · exact Or.inl (e2 ▸ h1)
    · rcases hbc with h2 | ⟨e2, l2⟩
      · exact Or.inl (e1 ▸ h2)
      · refine Or.inr ⟨e1.trans e2, ?_⟩
        rcases l1 with h1 | ⟨e1', l1'⟩
        · rcases l2 with h2 | ⟨e2', _⟩
          · exact Or.inl (h1.trans h2)
          · exact Or.inl (e2' ▸ h1)
        · rcases l2 with h2 | ⟨e2', l2'⟩
          · exact Or.inl (e1' ▸ h2)
          · exact Or.inr ⟨e1'.trans e2', l1'.trans l2'⟩

/-- Helper: membership in the generated upper-triangle index pairs. -/
theorem mem_pairIndices {n : ℕ} {ij : ℕ × ℕ} :
    ij ∈ pairIndices n ↔ ij.1 < ij.2 ∧ ij.2 < n := by
  unfold pairIndices
  rw [List.mem_flatMap]
  constructor
  · rintro ⟨i, hi, hij⟩
    obtain ⟨j, hj, rfl⟩ := List.mem_map.mp hij
    rw [List.mem_range] at hi
    rw [List.mem_range'_1] at hj
    exact ⟨by omega, by omega⟩
  · rintro ⟨h1, h2⟩
    refine ⟨ij.1, List.mem_range.mpr (by omega), List.mem_map.mpr
      ⟨ij.2, List.mem_range'_1.mpr ⟨by omega, by omega⟩, rfl⟩⟩

/-- Helper: the generated index pairs are distinct. -/
theorem pairIndices_nodup (n : ℕ) : (pairIndices n).Nodup := by
  unfold pairIndices
  rw [List.nodup_flatMap]
  constructor
  · intro i _
    refine List.Nodup.map ?_ (List.nodup_range' _ _)
    intro a b hab
    simpa using hab
  · refine (List.pairwise_lt_range n).imp ?_
    intro i i' hii
    intro p hp hp'
    obtain ⟨j, _, rfl⟩ := List.mem_map.mp hp
    obtain ⟨j', _, hj'⟩ := List.mem_map.mp hp'
    have : i = i' := (Prod.mk.injEq _ _ _ _).mp hj'.symm |>.1
    omega

/-- Helper: Gauss sum for the range list. -/
theorem range_sum_twice (n : ℕ) : (List.range n).sum * 2 = n * (n - 1) := by
  induction n with
  | zero => rfl
  | succ m ih =>
    rw [List.range_succ, List.sum_append, List.sum_cons, List.sum_nil]
    have hexp : ((List.range m).sum + (m + 0)) * 2 =
        (List.range m).sum * 2 + m * 2 := by ring
    rw [hexp, ih]
    cases m with
    | zero => rfl
    | succ k =>
      simp only [Nat.succ_sub_one]
      ring

/-- Helper: the upper triangle of an `n × n` matrix has `n choose 2`
entries. -/
theorem pairIndices_length (n : ℕ) : (pairIndices n).length = n.choose 2 := by
  unfold pairIndices
  rw [List.length_flatMap]
  have hmap : (List.map (List.length ∘ fun i =>
      (List.range' (i + 1) (n - (i + 1))).map fun j => (i, j)) (List.range n)) =
      (List.range n).map fun i => n - 1 - i := by
    apply List.map_congr_left
    intro i _
    simp [Nat.sub_sub, Nat.add_comm 1 i]
  rw [hmap]
  have hrev : ((List.range n).map fun i => n - 1 - i) = (List.range n).reverse := by
    conv_rhs => rw [List.range_eq_range']
    rw [List.reverse_range']
    simp
  rw [hrev, List.sum_reverse, Nat.choose_two_right]
  have := range_sum_twice n
  omega

/-- Helper: with distinct names, positions are recoverable from names. -/
theorem peopleNames_getD_inj (ps : List (String × String))
    (hnd : (peopleNames ps).Nodup) {i i' : ℕ}
    (hi : i < ps.length) (hi' : i' < ps.length)
    (h : (ps.getD i ("", "")).1 = (ps.getD i' ("", "")).1) : i = i' := by
  have hlen : (peopleNames ps).length = ps.length := by simp [peopleNames]
  rw [List.getD_eq_getElem _ _ hi, List.getD_eq_getElem _ _ hi'] at h
  have hb : i < (peopleNames ps).length := by omega
  have hb' : i' < (peopleNames ps).length := by omega
  have h' : (peopleNames ps)[i] = (peopleNames ps)[i'] := by
    simpa [peopleNames] using h
  have := List.nodup_iff_injective_getElem.mp hnd
  have hfin := @this ⟨i, by omega⟩ ⟨i', by omega⟩ h'
  simpa using hfin

/-- C5: `find_top_k_similar_pairs k` returns the first `k` entries of the
upper-triangle pair list sorted by score descending with ties in `(i, j)`
lexicographic order (the stable sort's generation order): `min k (N choose 2)`
triples, each from the strict upper triangle, sorted for `pairOrder`, with no
unordered name pair twice. -/
theorem find_top_k_similar_pairs_characterization (st : EngineState)
    (sim : List (List ℚ)) (ps : List (String × String)) (k : ℕ)
    (hs : st.similarity_matrix = some sim) (hp : st.people_data = some ps)
    (hdim : sim.length = ps.length)
    (hrows : ∀ r ∈ sim, r.length = ps.length)
    (hnd : (peopleNames ps).Nodup) :
    find_top_k_similar_pairs st k =
      .ok (((List.insertionSort (pairOrder sim) (pairIndices ps.length)).take k).map
        (pairTriple ps sim)) ∧
    (((List.insertionSort (pairOrder sim) (pairIndices ps.length)).take k).map
      (pairTriple ps sim)).length = min k (ps.length.choose 2) ∧
    (∀ t ∈ ((List.insertionSort (pairOrder sim) (pairIndices ps.length)).take k).map
        (pairTriple ps sim),
      ∃ i j, i < j ∧ j < ps.length ∧ t = pairTriple ps sim (i, j)) ∧
    ((List.insertionSort (pairOrder sim) (pairIndices ps.length)).take k).Pairwise
      (pairOrder sim) ∧
    (((List.insertionSort (pairOrder sim) (pairIndices ps.length)).take k).map
      (pairTriple ps sim)).Pairwise
      (fun a b => ¬((a.1 = b.1 ∧ a.2.1 = b.2.1) ∨ (a.1 = b.2.1 ∧ a.2.1 = b.1))) ∧
    ((((List.insertionSort (pairOrder sim) (pairIndices ps.length)).take k).map
      (pairTriple ps sim)).length < k ↔ ps.length.choose 2 < k) := by
  have hperm : List.Perm
      (List.insertionSort (pairOrder sim) (pairIndices ps.length))
      (pairIndices ps.length) := List.perm_insertionSort _ _
  have hsub : ((List.insertionSort (pairOrder sim) (pairIndices ps.length)).take k).Sublist
      (List.insertionSort (pairOrder sim) (pairIndices ps.length)) :=
    List.take_sublist _ _
  have hmem : ∀ ij ∈ (List.insertionSort (pairOrder sim) (pairIndices ps.length)).take k,
      ij.1 < ij.2 ∧ ij.2 < ps.length := fun ij hij =>
    mem_pairIndices.mp (hperm.subset (hsub.subset hij))
  refine ⟨?_, ?_, ?_, ?_, ?_, ?_⟩
  · unfold find_top_k_similar_pairs
    simp only [hs, hp]
    rw [mapOrFail_eq_ok _ (fun ij => scoreAt sim ij) _ ?_]
    intro ij hij
    obtain ⟨h1, h2⟩ := mem_pairIndices.mp hij
    have hi : ij.1 < sim.length := by omega
    have hrow : sim[ij.1].length = ps.length := hrows _ (List.getElem_mem _)
    have hj : ij.2 < sim[ij.1].length := by omega
    unfold fetchSim scoreAt
    simp only [List.getElem?_eq_getElem hi, List.getElem?_eq_getElem hj,
      List.getD_eq_getElem _ _ hi, List.getD_eq_getElem _ _ hj]
  · rw [List.length_map, List.length_take, hperm.length_eq, pairIndices_length]
  · intro t ht
    obtain ⟨ij, hij, rfl⟩ := List.mem_map.mp ht
    obtain ⟨h1, h2⟩ := hmem ij hij
    exact ⟨ij.1, ij.2, h1, h2, rfl⟩
  · exact (List.sorted_insertionSort _ _).sublist hsub
  · rw [List.pairwise_map]
    have hnodup : ((List.insertionSort (pairOrder sim) (pairIndices ps.length)).take k).Nodup :=
      (hperm.nodup_iff.mpr (pairIndices_nodup _)).sublist hsub
    refine hnodup.imp_of_mem ?_
    intro ij ij' hij hij' hne hcon
    obtain ⟨b1, b2⟩ := hmem ij hij
    obtain ⟨b1', b2'⟩ := hmem ij' hij'
    rcases hcon with ⟨h1, h2⟩ | ⟨h1, h2⟩
    · have e1 := peopleNames_getD_inj ps hnd (by omega) (by omega) h1
      have e2 := peopleNames_getD_inj ps hnd (by omega) (by omega) h2
      exact hne (Prod.ext e1 e2)
    · have e1 := peopleNames_getD_inj ps hnd (by omega) (by omega) h1
      have e2 := peopleNames_getD_inj ps hnd (by omega) (by omega) h2
      omega
  · rw [List.length_map, List.length_take, hperm.length_eq, pairIndices_length]
    omega

/-- C5, witness: the characterization applied to the concrete two-person
state with `k = 3` (more than the single upper-triangle pair). -/
theorem find_top_k_similar_pairs_characterization_witness :
    find_top_k_similar_pairs stPair 3 =
      .ok (((List.insertionSort (pairOrder [[1, 1/2], [1/2, 1]])
          (pairIndices 2)).take 3).map
        (pairTriple [("A", "x"), ("B", "y")] [[1, 1/2], [1/2, 1]])) ∧
    (((List.insertionSort (pairOrder [[1, 1/2], [1/2, 1]])
          (pairIndices 2)).take 3).map
        (pairTriple [("A", "x"), ("B", "y")] [[1, 1/2], [1/2, 1]])).length =
      min 3 (Nat.choose 2 2) ∧
    (∀ t ∈ ((List.insertionSort (pairOrder [[1, 1/2], [1/2, 1]])
          (pairIndices 2)).take 3).map
        (pairTriple [("A", "x"), ("B", "y")] [[1, 1/2], [1/2, 1]]),
      ∃ i j, i < j ∧ j < 2 ∧
        t = pairTriple [("A", "x"), ("B", "y")] [[1, 1/2], [1/2, 1]] (i, j)) ∧
    ((List.insertionSort (pairOrder [[1, 1/2], [1/2, 1]])
        (pairIndices 2)).take 3).Pairwise (pairOrder [[1, 1/2], [1/2, 1]]) ∧
    (((List.insertionSort (pairOrder [[1, 1/2], [1/2, 1]])
          (pairIndices 2)).take 3).map
        (pairTriple [("A", "x"), ("B", "y")] [[1, 1/2], [1/2, 1]])).Pairwise
      (fun a b => ¬((a.1 = b.1 ∧ a.2.1 = b.2.1) ∨ (a.1 = b.2.1 ∧ a.2.1 = b.1))) ∧
    ((((List.insertionSort (pairOrder [[1, 1/2], [1/2, 1]])
          (pairIndices 2)).take 3).map
        (pairTriple [("A", "x"), ("B", "y")] [[1, 1/2], [1/2, 1]])).length < 3 ↔
      Nat.choose 2 2 < 3) :=
  find_top_k_similar_pairs_characterization stPair [[1, 1/2], [1/2, 1]]
    [("A", "x"), ("B", "y")] 3 rfl rfl rfl
    (by
      intro r hr
      rcases hr with _ | ⟨_, hr⟩
      · rfl
      · rcases hr with _ | ⟨_, hr⟩
        · rfl
        · cases hr)
    (by decide)
